import Mathlib

/-!
# Verification of the cheapskate-finance-tracker backup/sync core

A shallow embedding of the server's backup scheduler, upload validation,
and IndexedDB sync export/import protocol (`server/handlers_sync.go`,
`server/handlers_backup.go`, `server/category_config.go`,
`server/handlers_frontend.go`, and the SQL queries in
`server/db/queries.sql`), together with proofs about the claims of the
specification.

The SQLite store is modelled as lists of rows; SQL queries become list
operations translated clause-by-clause from `queries.sql`.  Timestamps
(`time.Time` values) are modelled as UTC calendar instants at second
granularity; the RFC3339 wire format used by the handlers is modelled by
an executable formatter and parser for the canonical `YYYY-MM-DDTHH:MM:SSZ`
form that the server itself emits.
-/

/-- A UTC instant at second granularity, modelling Go `time.Time` as used by
the handlers (stored dates, `created_at`, export timestamps). -/
structure Time where
  year : Nat
  month : Nat
  day : Nat
  hour : Nat
  minute : Nat
  second : Nat
deriving DecidableEq, Repr

/-- Calendar validity of a `Time`, as maintained by Go's normalised
`time.Time` values: a `time.Time` always renders with fields in range. -/
def Time.Valid (t : Time) : Prop :=
  t.year ≤ 9999 ∧ 1 ≤ t.month ∧ t.month ≤ 12 ∧ 1 ≤ t.day ∧ t.day ≤ 31 ∧
    t.hour ≤ 23 ∧ t.minute ≤ 59 ∧ t.second ≤ 59

instance (t : Time) : Decidable t.Valid := by
  unfold Time.Valid; infer_instance

/-- Chronological sort key of an instant (monotone encoding of the field
tuple), used to model SQL `ORDER BY t.date DESC`. -/
def Time.key (t : Time) : Nat :=
  ((((t.year * 13 + t.month) * 32 + t.day) * 24 + t.hour) * 60 + t.minute) * 60
    + t.second

/-- The decimal digit character for `n % 10`. -/
def digitChar (n : Nat) : Char := Char.ofNat (48 + n % 10)

/-- Digit-list worker, structurally recursive on a fuel bound (any
`fuel ≥ n` yields the digits of `n`). -/
def decimalDigitsAux : Nat → Nat → List Char
  | 0, n => [digitChar n]
  | fuel + 1, n =>
    if n < 10 then [digitChar n]
    else decimalDigitsAux fuel (n / 10) ++ [digitChar n]

/-- Decimal digit string of a natural number, most significant digit
first; models Go `fmt.Sprintf("%d", n)` / `strconv`. -/
def decimalDigits (n : Nat) : List Char := decimalDigitsAux n n

/-- Go `fmt.Sprintf("%d", n)` for a natural number. -/
def natDecimalString (n : Nat) : String := ⟨decimalDigits n⟩

/-- Left-pad a digit list with `'0'` to length four; SQLite's
`strftime('%Y', ...)` renders years zero-padded to four digits. -/
def padZeros4 (ds : List Char) : List Char :=
  List.replicate (4 - ds.length) '0' ++ ds

/-- SQLite `strftime('%Y', t.date)`: the (at least) four-digit year string. -/
def strftimeY (t : Time) : String := ⟨padZeros4 (decimalDigits t.year)⟩

/-- Two-digit zero-padded field, for RFC3339 rendering. -/
def pad2 (n : Nat) : List Char := [digitChar (n / 10), digitChar n]

/-- Four-digit zero-padded field, for RFC3339 rendering. -/
def pad4 (n : Nat) : List Char :=
  [digitChar (n / 1000), digitChar (n / 100), digitChar (n / 10), digitChar n]

/-- Go `t.UTC().Format(time.RFC3339)` on a UTC instant: the canonical
`YYYY-MM-DDTHH:MM:SSZ` rendering. -/
def formatRFC3339 (t : Time) : String :=
  ⟨pad4 t.year ++ '-' :: pad2 t.month ++ '-' :: pad2 t.day ++
    'T' :: pad2 t.hour ++ ':' :: pad2 t.minute ++ ':' :: pad2 t.second ++ ['Z']⟩

/-- Numeric value of a decimal digit character, `none` on a non-digit. -/
def toDigit (c : Char) : Option Nat :=
  if 48 ≤ c.toNat ∧ c.toNat ≤ 57 then some (c.toNat - 48) else none

/-- Read two decimal digits. -/
def parse2 : List Char → Option (Nat × List Char)
  | c₁ :: c₂ :: rest =>
    match toDigit c₁, toDigit c₂ with
    | some a, some b => some (10 * a + b, rest)
    | _, _ => none
  | _ => none

/-- Read four decimal digits. -/
def parse4 : List Char → Option (Nat × List Char)
  | c₁ :: c₂ :: c₃ :: c₄ :: rest =>
    match toDigit c₁, toDigit c₂, toDigit c₃, toDigit c₄ with
    | some a, some b, some c, some d =>
        some (1000 * a + 100 * b + 10 * c + d, rest)
    | _, _, _, _ => none
  | _ => none

/-- Consume one expected literal character. -/
def expectChar (c : Char) : List Char → Option (List Char)
  | c' :: rest => if c' = c then some rest else none
  | _ => none

/-- Go `time.Parse(time.RFC3339, s)`, modelled on the canonical UTC form
`YYYY-MM-DDTHH:MM:SSZ` that this system writes (the only form the server
itself produces); any other string is a parse error.  Field ranges are
checked as `time.Parse` does. -/
def parseRFC3339 (s : String) : Option Time := do
  let r := s.data
  let (y, r) ← parse4 r
  let r ← expectChar '-' r
  let (mo, r) ← parse2 r
  let r ← expectChar '-' r
  let (d, r) ← parse2 r
  let r ← expectChar 'T' r
  let (h, r) ← parse2 r
  let r ← expectChar ':' r
  let (mi, r) ← parse2 r
  let r ← expectChar ':' r
  let (sec, r) ← parse2 r
  let r ← expectChar 'Z' r
  match r with
  | [] =>
    let t : Time := ⟨y, mo, d, h, mi, sec⟩
    if t.Valid then some t else none
  | _ => none

/-! ## Data model (tables of `server/db/schema.sql`) -/

/-- A row of the `categories` table. -/
structure Category where
  id : Int
  name : String
  type : String
  icon : Option String
  color : Option String
deriving DecidableEq, Repr

/-- A row of the `transactions` table. -/
structure Transaction where
  id : Int
  userId : Int
  categoryId : Int
  amount : Int
  currency : String
  description : String
  date : Time
  createdAt : Option Time
  deletedAt : Option Time
deriving DecidableEq, Repr

/-- The SQLite store: the three tables plus the `AUTOINCREMENT` high-water
mark for transaction ids (users are kept as their ids; only `user_id`
join membership matters to the verified code). -/
structure Store where
  users : List Int
  categories : List Category
  transactions : List Transaction
  nextTransactionId : Int
deriving DecidableEq, Repr

/-! ## Wire structures (`server/handlers_sync.go`) -/

/-- `SyncTransaction`: a transaction in the sync JSON format. -/
structure SyncTransaction where
  id : Int
  amount : Int
  currency : String
  description : String
  date : String
  categoryName : String
  categoryType : String
  createdAt : String
deriving DecidableEq, Repr

/-- `SyncCategory`: a category in the sync JSON format. -/
structure SyncCategory where
  id : Int
  name : String
  type : String
  icon : String
  color : String
deriving DecidableEq, Repr

/-- `SyncExportResponse`: the sync export envelope. -/
structure SyncExportResponse where
  transactions : List SyncTransaction
  categories : List SyncCategory
  year : String
  exportedAt : String
deriving DecidableEq, Repr

/-- `SyncImportResponse`: the import outcome counts. -/
structure SyncImportResponse where
  imported : Nat
  skipped : Nat
  errors : Nat
deriving DecidableEq, Repr

/-- `StorageTransaction`: a transaction in the backup JSON sidecar written
by `performJSONExport`. -/
structure StorageTransaction where
  id : Int
  amount : Int
  currency : String
  description : String
  date : String
  categoryName : String
  categoryType : String
deriving DecidableEq, Repr

/-- `StorageExportResponse`: the JSON sidecar envelope written each backup
cycle. -/
structure StorageExportResponse where
  transactions : List StorageTransaction
  categories : List SyncCategory
  year : String
  exportedAt : String
deriving DecidableEq, Repr

/-! ## Queries (`server/db/queries.sql`) -/

/-- `CountAllTransactions`: `SELECT COUNT(*) FROM transactions WHERE
deleted_at IS NULL`. -/
def countAllTransactions (s : Store) : Nat :=
  (s.transactions.filter (fun t => t.deletedAt = none)).length

/-- `GetCategoryByName`: `SELECT * FROM categories WHERE name = ? LIMIT 1`
(first matching row in table order). -/
def getCategoryByName (s : Store) (name : String) : Option Category :=
  s.categories.find? (fun c => c.name = name)

/-- Strict byte-wise lexicographic order on character lists, modelling
SQLite's BINARY collation on TEXT values. -/
def charListLt : List Char → List Char → Bool
  | [], [] => false
  | [], _ :: _ => true
  | _ :: _, [] => false
  | c₁ :: l₁, c₂ :: l₂ =>
    if c₁.toNat < c₂.toNat then true
    else if c₂.toNat < c₁.toNat then false
    else charListLt l₁ l₂

/-- Non-strict byte-wise lexicographic order. -/
def charListLe : List Char → List Char → Bool
  | [], _ => true
  | _ :: _, [] => false
  | c₁ :: l₁, c₂ :: l₂ =>
    if c₁.toNat < c₂.toNat then true
    else if c₂.toNat < c₁.toNat then false
    else charListLe l₁ l₂

/-- SQLite BINARY `<` on strings. -/
def stringLt (s₁ s₂ : String) : Bool := charListLt s₁.data s₂.data

/-- SQLite BINARY `≤` on strings. -/
def stringLe (s₁ s₂ : String) : Bool := charListLe s₁.data s₂.data

/-- The `ORDER BY type, name` comparison of `ListCategories`:
lexicographic on the `(type, name)` strings. -/
def categoryLe (c₁ c₂ : Category) : Bool :=
  stringLt c₁.type c₂.type || (c₁.type = c₂.type && stringLe c₁.name c₂.name)

/-- `ListCategories`: `SELECT * FROM categories ORDER BY type, name`. -/
def listCategories (s : Store) : List Category :=
  s.categories.insertionSort (fun c₁ c₂ => categoryLe c₁ c₂ = true)

/-- A row of the `ListTransactionsByYear` join (transaction plus the joined
category's name/type/icon). -/
structure TxRow where
  tx : Transaction
  categoryName : String
  categoryType : String
  categoryIcon : Option String
deriving DecidableEq, Repr

/-- The `JOIN categories c ON t.category_id = c.id` /
`JOIN users u ON t.user_id = u.id` step: inner joins drop a transaction
whose category or user reference does not resolve. -/
def joinRow (s : Store) (t : Transaction) : Option TxRow :=
  if t.userId ∈ s.users then
    (s.categories.find? (fun c => c.id = t.categoryId)).map
      (fun c => ⟨t, c.name, c.type, c.icon⟩)
  else none

/-- The `ORDER BY t.date DESC` comparison. -/
def rowDateDesc (r₁ r₂ : TxRow) : Prop := r₂.tx.date.key ≤ r₁.tx.date.key

instance : DecidableRel rowDateDesc := fun r₁ r₂ => by
  unfold rowDateDesc; infer_instance

/-- `ListTransactionsByYear`: transactions joined with categories and
users, kept when `strftime('%Y', t.date) = CAST(? AS TEXT)` and
`deleted_at IS NULL`, ordered by date descending. -/
def listTransactionsByYear (s : Store) (year : String) : List TxRow :=
  ((s.transactions.filter
      (fun t => t.deletedAt = none && strftimeY t.date = year)).filterMap
    (joinRow s)).insertionSort rowDateDesc

/-- `ListAllTransactionsForExport`: all non-deleted transactions joined
with their category name and type, ordered by date descending (no users
join in this query). -/
def listAllTransactionsForExport (s : Store) : List TxRow :=
  ((s.transactions.filter (fun t => t.deletedAt = none)).filterMap
    (fun t => (s.categories.find? (fun c => c.id = t.categoryId)).map
      (fun c => (⟨t, c.name, c.type, c.icon⟩ : TxRow)))).insertionSort rowDateDesc

/-- `CreateTransaction`: `INSERT INTO transactions (user_id, category_id,
amount, currency, description, date) VALUES (...) RETURNING *`; `id` is the
autoincrement key, `created_at` defaults to the current timestamp,
`deleted_at` to NULL. -/
def createTransaction (s : Store) (userId categoryId : Int) (amount : Int)
    (currency description : String) (date : Time) (now : Time) :
    Store × Transaction :=
  let t : Transaction :=
    ⟨s.nextTransactionId, userId, categoryId, amount, currency, description,
      date, some now, none⟩
  ({ s with
      transactions := s.transactions ++ [t]
      nextTransactionId := s.nextTransactionId + 1 }, t)

/-! ## Sync export (`HandleSyncExport`, `server/handlers_sync.go`) -/

/-- The `SyncTransaction` built for one row of `ListTransactionsByYear`
inside `HandleSyncExport` (note the handler writes `CategoryType: ""`). -/
def syncTransactionOfRow (r : TxRow) : SyncTransaction :=
  { id := r.tx.id
    amount := r.tx.amount
    currency := r.tx.currency
    description := r.tx.description
    date := formatRFC3339 r.tx.date
    categoryName := r.categoryName
    categoryType := ""
    createdAt := match r.tx.createdAt with
      | some c => formatRFC3339 c
      | none => "" }

/-- The `SyncCategory` built for one row of `ListCategories`. -/
def syncCategoryOfRow (c : Category) : SyncCategory :=
  { id := c.id
    name := c.name
    type := c.type
    icon := c.icon.getD ""
    color := c.color.getD "" }

/-- `HandleSyncExport`: the `year` query parameter (or the current server
year via `fmt.Sprintf("%d", time.Now().Year())` when absent) selects the
transactions; categories are always listed in full. -/
def handleSyncExport (s : Store) (yearParam : Option String) (now : Time) :
    SyncExportResponse :=
  let year := match yearParam with
    | some y => y
    | none => natDecimalString now.year
  { transactions := (listTransactionsByYear s year).map syncTransactionOfRow
    categories := (listCategories s).map syncCategoryOfRow
    year := year
    exportedAt := formatRFC3339 now }

/-! ## Backup JSON sidecar (`performJSONExport`, `server/category_config.go`) -/

/-- The `StorageTransaction` built for one row of
`ListAllTransactionsForExport` inside `performJSONExport` (here the
category type is denormalised for real). -/
def storageTransactionOfRow (r : TxRow) : StorageTransaction :=
  { id := r.tx.id
    amount := r.tx.amount
    currency := r.tx.currency
    description := r.tx.description
    date := formatRFC3339 r.tx.date
    categoryName := r.categoryName
    categoryType := r.categoryType }

/-- The envelope `performJSONExport` writes to `cheapskate.json` every
backup cycle: all non-deleted transactions, all categories, year `"all"`. -/
def performJSONExportEnvelope (s : Store) (now : Time) :
    StorageExportResponse :=
  { transactions := (listAllTransactionsForExport s).map storageTransactionOfRow
    categories := (listCategories s).map syncCategoryOfRow
    year := "all"
    exportedAt := formatRFC3339 now }

/-! ## Sync import (`HandleSyncImport`, `server/handlers_sync.go`) -/

/-- Category resolution of one import record: exact lookup by name, then
fallback to the first row of `ListCategories` (`cats[0]`); `none` exactly
when the catalog is empty. -/
def resolveImportCategory (s : Store) (name : String) : Option Category :=
  match getCategoryByName s name with
  | some cat => some cat
  | none => (listCategories s).head?

/-- The record loop of `HandleSyncImport`: resolve the category, parse the
date, insert; a record failing resolution or parsing increments `errors`
and the loop continues. -/
def importLoop (now : Time) :
    Store → Nat → Nat → List SyncTransaction → Store × Nat × Nat
  | s, imported, errors, [] => (s, imported, errors)
  | s, imported, errors, r :: rest =>
    match resolveImportCategory s r.categoryName with
    | none => importLoop now s imported (errors + 1) rest
    | some cat =>
      match parseRFC3339 r.date with
      | none => importLoop now s imported (errors + 1) rest
      | some d =>
        let s' := (createTransaction s 1 cat.id r.amount r.currency
          r.description d now).1
        importLoop now s' (imported + 1) errors rest

/-- `HandleSyncImport`: if the store already holds a non-deleted
transaction the whole call is skipped; otherwise each record is processed
independently and `skipped = len - imported - errors` at the end. -/
def handleSyncImport (s : Store) (records : List SyncTransaction)
    (now : Time) : Store × SyncImportResponse :=
  if countAllTransactions s > 0 then
    (s, ⟨0, records.length, 0⟩)
  else
    let (s', imported, errors) := importLoop now s 0 0 records
    (s', ⟨imported, records.length - imported - errors, errors⟩)

/-! ## Transaction create (`HandleTransactionCreate`,
`server/handlers_frontend.go`) -/

/-- `ParsedTransaction` from `server/parser.go`: the parsed amount (cents,
from the non-negative numeric literal of the `"50 pizza"` syntax), the
description, and the inferred category name. -/
structure ParsedTransaction where
  amount : Int
  description : String
  category : String
deriving DecidableEq, Repr

/-- Category resolution of `HandleTransactionCreate`: exact lookup, then
the `"Earned Income" → "Salary"` backwards-compatibility alternative, then
the first catalog entry, then the hardcoded `(1, "Unknown", "expense")`. -/
def resolveCreateCategory (s : Store) (name : String) :
    Int × String × String :=
  match getCategoryByName s name with
  | some c => (c.id, c.name, c.type)
  | none =>
    let altName := if name = "Earned Income" then "Salary" else name
    match getCategoryByName s altName with
    | some c => (c.id, c.name, c.type)
    | none =>
      match listCategories s with
      | c :: _ => (c.id, c.name, c.type)
      | [] => (1, "Unknown", "expense")

/-- `HandleTransactionCreate` after parsing: resolve the category, negate
the amount when the resolved type is `"expense"`, insert with `USD` and the
current time.  Returns the new store and the inserted row. -/
def handleTransactionCreate (s : Store) (parsed : ParsedTransaction)
    (now : Time) : Store × Transaction :=
  let resolved := resolveCreateCategory s parsed.category
  let amount := if resolved.2.2 = "expense" then -parsed.amount
    else parsed.amount
  createTransaction s 1 resolved.1 amount "USD" parsed.description now now

/-! ## Restore upload validation (`HandleBackupRestore`,
`server/handlers_backup.go`) -/

/-- The first sixteen bytes of every SQLite database file:
`"SQLite format 3\x00"`. -/
def sqliteMagic : List Nat :=
  [0x53, 0x51, 0x4C, 0x69, 0x74, 0x65, 0x20, 0x66, 0x6F, 0x72, 0x6D, 0x61,
   0x74, 0x20, 0x33, 0x00]

/-- The magic-byte check of `HandleBackupRestore`: read exactly sixteen
bytes (`io.ReadFull` fails on a shorter upload) and compare them with the
SQLite signature. -/
def validateUpload (upload : List Nat) : Bool :=
  16 ≤ upload.length && upload.take 16 = sqliteMagic

/-- `HandleBackupRestore` at the store level: an upload failing the
magic-byte check is rejected before `sqliteRestore` runs, leaving the live
store untouched; a valid upload overwrites the live store with the
uploaded snapshot's contents (`uploadedContent`). -/
def handleBackupRestore (live : Store) (upload : List Nat)
    (uploadedContent : Store) : Store × Bool :=
  if validateUpload upload then (uploadedContent, true) else (live, false)

/-! ## Backup scheduler (`runBackup` and the last-backup timestamp,
`server/category_config.go`) -/

/-- `getLastBackupTime` (zero value modelled as `none`). -/
def getLastBackupTime (st : Option Time) : Option Time := st

/-- `setLastBackupTime`. -/
def setLastBackupTime (_st : Option Time) (t : Time) : Option Time := some t

/-- One `runBackup` cycle: the two sub-steps' results are inputs (`none` =
success, `some msg` = error); each failure is logged, then
`setLastBackupTime(time.Now())` runs unconditionally.  Returns the new
shared timestamp and the log lines of the cycle. -/
def runBackup (backupErr jsonErr : Option String) (now : Time)
    (last : Option Time) : Option Time × List String :=
  let log₁ := match backupErr with
    | some e => ["Backup failed (db): " ++ e]
    | none => []
  let log₂ := match jsonErr with
    | some e => ["Backup failed (json): " ++ e]
    | none => []
  (setLastBackupTime last now, log₁ ++ log₂ ++ ["Backup completed"])

/-! ## Digit and wire-format lemmas -/

theorem digitChar_toNat (n : Nat) : (digitChar n).toNat = 48 + n % 10 := by
  have h : n % 10 < 10 := Nat.mod_lt _ (by omega)
  unfold digitChar
  generalize n % 10 = k at *
  interval_cases k <;> decide

theorem toDigit_digitChar (n : Nat) : toDigit (digitChar n) = some (n % 10) := by
  have h : n % 10 < 10 := Nat.mod_lt _ (by omega)
  rw [toDigit, digitChar_toNat, if_pos (by omega)]
  congr 1
  omega

theorem parse2_pad2 (n : Nat) (h : n < 100) (rest : List Char) :
    parse2 (pad2 n ++ rest) = some (n, rest) := by
  simp only [pad2, List.cons_append, List.nil_append, parse2, toDigit_digitChar]
  have h₁ : (n / 10) % 10 = n / 10 := Nat.mod_eq_of_lt (by omega)
  rw [h₁]
  congr 2
  omega

theorem parse4_pad4 (n : Nat) (h : n < 10000) (rest : List Char) :
    parse4 (pad4 n ++ rest) = some (n, rest) := by
  simp only [pad4, List.cons_append, List.nil_append, parse4, toDigit_digitChar]
  congr 2
  omega

theorem expectChar_cons (c : Char) (rest : List Char) :
    expectChar c (c :: rest) = some rest := by
  simp [expectChar]

set_option maxHeartbeats 1000000 in
theorem parseRFC3339_formatRFC3339 (t : Time) (h : t.Valid) :
    parseRFC3339 (formatRFC3339 t) = some t := by
  obtain ⟨y, mo, d, hh, mi, s⟩ := t
  simp only [Time.Valid] at h
  obtain ⟨h₁, h₂, h₃, h₄, h₅, h₆, h₇, h₈⟩ := h
  have p4 := fun r => parse4_pad4 y (by omega) r
  have pmo := fun r => parse2_pad2 mo (by omega) r
  have pd := fun r => parse2_pad2 d (by omega) r
  have phh := fun r => parse2_pad2 hh (by omega) r
  have pmi := fun r => parse2_pad2 mi (by omega) r
  have ps := fun r => parse2_pad2 s (by omega) r
  have hv : Time.Valid ⟨y, mo, d, hh, mi, s⟩ := by
    simp only [Time.Valid]
    omega
  simp only [parseRFC3339, formatRFC3339, Option.bind_eq_bind,
    List.append_assoc, List.cons_append]
  rw [p4]
  simp only [Option.some_bind, expectChar_cons, pmo, pd, phh, pmi, ps]
  simp [hv]

/-- Numeric value of a digit string (inverse of `decimalDigits`). -/
def valOfDigits (ds : List Char) : Nat :=
  ds.foldl (fun a c => 10 * a + (c.toNat - 48)) 0

theorem foldl_decimalDigitsAux (fuel : Nat) :
    ∀ n a, n ≤ fuel ∨ n < 10 →
      List.foldl (fun a c => 10 * a + (c.toNat - 48)) a
          (decimalDigitsAux fuel n) =
        a * 10 ^ (decimalDigitsAux fuel n).length + n := by
  induction fuel with
  | zero =>
    intro n a h
    have hn : n < 10 := by omega
    simp [decimalDigitsAux, digitChar_toNat]
    omega
  | succ fuel ih =>
    intro n a h
    by_cases hn : n < 10
    · simp [decimalDigitsAux, hn, digitChar_toNat]
      omega
    · have hrec : n / 10 ≤ fuel ∨ n / 10 < 10 := by omega
      simp only [decimalDigitsAux, if_neg hn, List.foldl_append,
        List.length_append, ih (n / 10) a hrec, List.foldl_cons,
        List.foldl_nil, List.length_cons, List.length_nil,
        digitChar_toNat]
      ring_nf
      omega

theorem valOfDigits_decimalDigits (n : Nat) :
    valOfDigits (decimalDigits n) = n := by
  have h := foldl_decimalDigitsAux n n 0 (Or.inl le_rfl)
  simpa [valOfDigits, decimalDigits] using h

theorem decimalDigits_injective {a b : Nat}
    (h : decimalDigits a = decimalDigits b) : a = b := by
  have ha := valOfDigits_decimalDigits a
  have hb := valOfDigits_decimalDigits b
  rw [h] at ha
  omega

theorem valOfDigits_padZeros4 (ds : List Char) :
    valOfDigits (padZeros4 ds) = valOfDigits ds := by
  have hrep : ∀ k, List.foldl (fun a c => 10 * a + (c.toNat - 48)) 0
      (List.replicate k '0') = 0 := by
    intro k
    induction k with
    | zero => simp
    | succ k ih => simpa [List.replicate_succ] using ih
  simp [valOfDigits, padZeros4, List.foldl_append, hrep]

/-- A `strftime('%Y', ...)` value equal to a `fmt.Sprintf("%d", ...)` value
names the same year. -/
theorem strftimeY_eq_natDecimalString {t : Time} {y : Nat}
    (h : strftimeY t = natDecimalString y) : t.year = y := by
  have hdata : padZeros4 (decimalDigits t.year) = decimalDigits y :=
    congrArg String.data h
  have hv := congrArg valOfDigits hdata
  rwa [valOfDigits_padZeros4, valOfDigits_decimalDigits,
    valOfDigits_decimalDigits] at hv

/-- `strftime('%Y', ...)` always yields at least four characters, so it is
never the string `"all"`. -/
theorem strftimeY_ne_all (t : Time) : strftimeY t ≠ "all" := by
  intro h
  have hdata : padZeros4 (decimalDigits t.year) = "all".data :=
    congrArg String.data h
  have hlen := congrArg List.length hdata
  simp [padZeros4] at hlen
  omega

/-- `fmt.Sprintf("%d", n)` is never the string `"all"`. -/
theorem natDecimalString_ne_all (n : Nat) : natDecimalString n ≠ "all" := by
  intro h
  have hdata : decimalDigits n = "all".data := congrArg String.data h
  have hv := congrArg valOfDigits hdata
  rw [valOfDigits_decimalDigits] at hv
  have h5560 : n = 5560 := by
    rw [hv]
    decide
  rw [h5560] at hdata
  exact absurd hdata (by decide)

/-! ## Query lemmas -/

theorem listCategories_perm (s : Store) :
    (listCategories s).Perm s.categories :=
  List.perm_insertionSort _ _

theorem listTransactionsByYear_perm (s : Store) (y : String) :
    (listTransactionsByYear s y).Perm
      ((s.transactions.filter
          (fun t => t.deletedAt = none && strftimeY t.date = y)).filterMap
        (joinRow s)) :=
  List.perm_insertionSort _ _

theorem listAllTransactionsForExport_perm (s : Store) :
    (listAllTransactionsForExport s).Perm
      ((s.transactions.filter (fun t => t.deletedAt = none)).filterMap
        (fun t => (s.categories.find? (fun c => c.id = t.categoryId)).map
          (fun c => (⟨t, c.name, c.type, c.icon⟩ : TxRow)))) :=
  List.perm_insertionSort _ _

theorem joinRow_eq_some {s : Store} {t : Transaction} {r : TxRow}
    (h : joinRow s t = some r) :
    r.tx = t ∧ ∃ c, s.categories.find? (fun c => c.id = t.categoryId) = some c
      ∧ r.categoryName = c.name ∧ r.categoryType = c.type := by
  unfold joinRow at h
  by_cases hu : t.userId ∈ s.users
  · rw [if_pos hu] at h
    cases hfind : s.categories.find? (fun c => c.id = t.categoryId) with
    | none => rw [hfind] at h; cases h
    | some c =>
      rw [hfind] at h
      cases h
      exact ⟨rfl, c, rfl, rfl, rfl⟩
  · rw [if_neg hu] at h
    cases h

theorem joinRow_isSome {s : Store} {t : Transaction}
    (hu : t.userId ∈ s.users)
    (hc : ∃ c ∈ s.categories, c.id = t.categoryId) :
    (joinRow s t).isSome := by
  unfold joinRow
  rw [if_pos hu]
  have : (s.categories.find? (fun c => c.id = t.categoryId)).isSome := by
    rw [List.find?_isSome]
    obtain ⟨c, hc₁, hc₂⟩ := hc
    exact ⟨c, hc₁, by simp [hc₂]⟩
  cases hfind : s.categories.find? (fun c => c.id = t.categoryId) with
  | none => rw [hfind] at this; cases this
  | some c => simp

/-- Looking a member up by its (unique) id returns it. -/
theorem find?_id_of_nodup {l : List Category}
    (hn : (l.map (fun c => c.id)).Nodup) {c : Category} (hc : c ∈ l) :
    l.find? (fun x => x.id = c.id) = some c := by
  induction l with
  | nil => cases hc
  | cons a l ih =>
    simp only [List.map_cons, List.nodup_cons, List.mem_map] at hn
    obtain ⟨ha, hn'⟩ := hn
    rcases List.mem_cons.mp hc with hca | hcl
    · subst hca
      simp [List.find?]
    · have hne : decide (a.id = c.id) = false :=
        decide_eq_false (fun he => ha ⟨c, hcl, he.symm⟩)
      simp only [List.find?, hne]
      exact ih hn' hcl

/-! ## Import-loop lemmas -/

theorem createTransaction_categories (s : Store) (u cid a : Int)
    (cur desc : String) (d now : Time) :
    (createTransaction s u cid a cur desc d now).1.categories =
      s.categories := rfl

theorem resolveImportCategory_congr {s₁ s₂ : Store}
    (h : s₁.categories = s₂.categories) (name : String) :
    resolveImportCategory s₁ name = resolveImportCategory s₂ name := by
  unfold resolveImportCategory getCategoryByName listCategories
  rw [h]

/-- Step equation of the loop: unresolvable category. -/
theorem importLoop_cons_badcat {s : Store} {r : SyncTransaction}
    (now : Time) (i e : Nat) (l : List SyncTransaction)
    (h : resolveImportCategory s r.categoryName = none) :
    importLoop now s i e (r :: l) = importLoop now s i (e + 1) l := by
  conv_lhs => unfold importLoop
  rw [h]

/-- Step equation of the loop: category resolved, date unparseable. -/
theorem importLoop_cons_baddate {s : Store} {r : SyncTransaction}
    {cat : Category} (now : Time) (i e : Nat) (l : List SyncTransaction)
    (hc : resolveImportCategory s r.categoryName = some cat)
    (hd : parseRFC3339 r.date = none) :
    importLoop now s i e (r :: l) = importLoop now s i (e + 1) l := by
  conv_lhs => unfold importLoop
  rw [hc, hd]

/-- Step equation of the loop: category resolved and date parsed, the
record is inserted. -/
theorem importLoop_cons_ok {s : Store} {r : SyncTransaction}
    {cat : Category} {d : Time} (now : Time) (i e : Nat)
    (l : List SyncTransaction)
    (hc : resolveImportCategory s r.categoryName = some cat)
    (hd : parseRFC3339 r.date = some d) :
    importLoop now s i e (r :: l) =
      importLoop now (createTransaction s 1 cat.id r.amount r.currency
        r.description d now).1 (i + 1) e l := by
  conv_lhs => unfold importLoop
  rw [hc, hd]

/-- Every record of one import call ends as exactly one of imported or
errored: the two final counters sum to the initial counters plus the batch
length. -/
theorem importLoop_counts (now : Time) (l : List SyncTransaction) :
    ∀ s i e, (importLoop now s i e l).2.1 + (importLoop now s i e l).2.2 =
      i + e + l.length := by
  induction l with
  | nil => intro s i e; simp [importLoop]
  | cons r l ih =>
    intro s i e
    cases hres : resolveImportCategory s r.categoryName with
    | none =>
      rw [importLoop_cons_badcat now i e l hres, ih]
      simp
      omega
    | some cat =>
      cases hdate : parseRFC3339 r.date with
      | none =>
        rw [importLoop_cons_baddate now i e l hres hdate, ih]
        simp
        omega
      | some d =>
        rw [importLoop_cons_ok now i e l hres hdate, ih]
        simp
        omega

theorem importLoop_categories (now : Time) (l : List SyncTransaction) :
    ∀ s i e, (importLoop now s i e l).1.categories = s.categories := by
  induction l with
  | nil => intro s i e; simp [importLoop]
  | cons r l ih =>
    intro s i e
    cases hres : resolveImportCategory s r.categoryName with
    | none => rw [importLoop_cons_badcat now i e l hres, ih]
    | some cat =>
      cases hdate : parseRFC3339 r.date with
      | none => rw [importLoop_cons_baddate now i e l hres hdate, ih]
      | some d =>
        rw [importLoop_cons_ok now i e l hres hdate, ih,
          createTransaction_categories]

/-- Inserts during the import are live rows: the non-deleted count grows by
exactly the number of imported records. -/
theorem importLoop_countAll (now : Time) (l : List SyncTransaction) :
    ∀ s i e, countAllTransactions (importLoop now s i e l).1 + i =
      countAllTransactions s + (importLoop now s i e l).2.1 := by
  induction l with
  | nil => intro s i e; simp [importLoop]
  | cons r l ih =>
    intro s i e
    cases hres : resolveImportCategory s r.categoryName with
    | none => rw [importLoop_cons_badcat now i e l hres, ih]
    | some cat =>
      cases hdate : parseRFC3339 r.date with
      | none => rw [importLoop_cons_baddate now i e l hres hdate, ih]
      | some d =>
        rw [importLoop_cons_ok now i e l hres hdate]
        have h1 := ih (createTransaction s 1 cat.id r.amount r.currency
          r.description d now).1 (i + 1) e
        have hc : countAllTransactions (createTransaction s 1 cat.id r.amount
            r.currency r.description d now).1 = countAllTransactions s + 1 := by
          simp [countAllTransactions, createTransaction, List.filter_append]
        omega

theorem handleSyncImport_guard {s : Store} (records : List SyncTransaction)
    (now : Time) (h : countAllTransactions s > 0) :
    handleSyncImport s records now = (s, ⟨0, records.length, 0⟩) := by
  unfold handleSyncImport
  rw [if_pos h]

theorem handleSyncImport_empty {s s₁ : Store} {i₁ e₁ : Nat}
    (records : List SyncTransaction) (now : Time)
    (h : countAllTransactions s = 0)
    (hloop : importLoop now s 0 0 records = (s₁, i₁, e₁)) :
    handleSyncImport s records now =
      (s₁, ⟨i₁, records.length - i₁ - e₁, e₁⟩) := by
  unfold handleSyncImport
  rw [if_neg (by omega), hloop]

/-- Projection form of the empty-store branch of `HandleSyncImport`. -/
theorem handleSyncImport_pair {s : Store} (records : List SyncTransaction)
    (now : Time) (h : countAllTransactions s = 0) :
    handleSyncImport s records now =
      ((importLoop now s 0 0 records).1,
        ⟨(importLoop now s 0 0 records).2.1,
          records.length - (importLoop now s 0 0 records).2.1 -
            (importLoop now s 0 0 records).2.2,
          (importLoop now s 0 0 records).2.2⟩) := by
  unfold handleSyncImport
  rw [if_neg (by omega)]

theorem resolveImportCategory_of_empty {s : Store}
    (h : s.categories = []) (name : String) :
    resolveImportCategory s name = none := by
  unfold resolveImportCategory getCategoryByName listCategories
  rw [h]
  rfl

/-- With an empty catalog every record of the batch is counted as an error
and the loop still runs to the end of the batch. -/
theorem importLoop_empty_catalog (now : Time) (l : List SyncTransaction) :
    ∀ s i e, s.categories = [] →
      importLoop now s i e l = (s, i, e + l.length) := by
  induction l with
  | nil => intro s i e _; simp [importLoop]
  | cons r l ih =>
    intro s i e h
    rw [importLoop_cons_badcat now i e l (resolveImportCategory_of_empty h _),
      ih s i (e + 1) h]
    simp
    omega

/-- When every record's category resolves, the error count is exactly the
number of records with unparseable dates. -/
theorem importLoop_resolved (now : Time) (l : List SyncTransaction) :
    ∀ s i e, (∀ r ∈ l, (resolveImportCategory s r.categoryName).isSome) →
      (importLoop now s i e l).2.2 =
        e + (l.filter (fun r => (parseRFC3339 r.date).isNone)).length := by
  induction l with
  | nil => intro s i e _; simp [importLoop]
  | cons r l ih =>
    intro s i e h
    have hr := h r (List.mem_cons_self r l)
    cases hres : resolveImportCategory s r.categoryName with
    | none => rw [hres] at hr; cases hr
    | some cat =>
      have htail : ∀ r' ∈ l, (resolveImportCategory s r'.categoryName).isSome :=
        fun r' hr' => h r' (List.mem_cons_of_mem r hr')
      cases hdate : parseRFC3339 r.date with
      | none =>
        rw [importLoop_cons_baddate now i e l hres hdate, ih s i (e + 1) htail]
        simp [List.filter_cons, hdate]
        omega
      | some d =>
        rw [importLoop_cons_ok now i e l hres hdate]
        have hcats : ((createTransaction s 1 cat.id r.amount r.currency
            r.description d now).1).categories = s.categories :=
          createTransaction_categories ..
        have htail' : ∀ r' ∈ l, (resolveImportCategory (createTransaction s 1
            cat.id r.amount r.currency r.description d now).1
            r'.categoryName).isSome := by
          intro r' hr'
          rw [resolveImportCategory_congr hcats]
          exact htail r' hr'
        rw [ih _ (i + 1) e htail']
        simp [List.filter_cons, hdate]

/-- Amounts of transactions present after the loop either were there
before or are the verbatim amount of some batch record. -/
theorem importLoop_mem_amount (now : Time) (l : List SyncTransaction) :
    ∀ s i e t, t ∈ (importLoop now s i e l).1.transactions →
      t ∈ s.transactions ∨ ∃ r ∈ l, t.amount = r.amount := by
  induction l with
  | nil =>
    intro s i e t ht
    exact Or.inl (by simpa [importLoop] using ht)
  | cons r l ih =>
    intro s i e t ht
    cases hres : resolveImportCategory s r.categoryName with
    | none =>
      rw [importLoop_cons_badcat now i e l hres] at ht
      rcases ih s i (e + 1) t ht with h | ⟨r', hr', ha⟩
      · exact Or.inl h
      · exact Or.inr ⟨r', List.mem_cons_of_mem r hr', ha⟩
    | some cat =>
      cases hdate : parseRFC3339 r.date with
      | none =>
        rw [importLoop_cons_baddate now i e l hres hdate] at ht
        rcases ih s i (e + 1) t ht with h | ⟨r', hr', ha⟩
        · exact Or.inl h
        · exact Or.inr ⟨r', List.mem_cons_of_mem r hr', ha⟩
      | some d =>
        rw [importLoop_cons_ok now i e l hres hdate] at ht
        rcases ih _ (i + 1) e t ht with h | ⟨r', hr', ha⟩
        · simp only [createTransaction, List.mem_append,
            List.mem_singleton] at h
          rcases h with h | h
          · exact Or.inl h
          · exact Or.inr ⟨r, List.mem_cons_self r l, by rw [h]⟩
        · exact Or.inr ⟨r', List.mem_cons_of_mem r hr', ha⟩

/-! ## Round-trip machinery -/

/-- The joined category name of a transaction (the `getD ""` default is
unreachable on well-formed stores, whose references all resolve). -/
def catNameOf (cats : List Category) (t : Transaction) : String :=
  ((cats.find? (fun c => c.id = t.categoryId)).map (fun c => c.name)).getD ""

/-- The joined category type of a transaction. -/
def catTypeOf (cats : List Category) (t : Transaction) : String :=
  ((cats.find? (fun c => c.id = t.categoryId)).map (fun c => c.type)).getD ""

/-- The data of a stored transaction that the round-trip law compares:
signed amount, currency, description, occurrence date, category name
(ids are renumbered by an import and deliberately ignored). -/
def liveEssence (cats : List Category) (t : Transaction) :
    Int × String × String × Time × String :=
  (t.amount, t.currency, t.description, t.date, catNameOf cats t)

/-- The corresponding data carried by an import record. -/
def recordEssence (r : SyncTransaction) :
    Int × String × String × Time × String :=
  (r.amount, r.currency, r.description,
    (parseRFC3339 r.date).getD ⟨0, 0, 0, 0, 0, 0⟩, r.categoryName)

theorem resolveImportCategory_of_get {s : Store} {name : String}
    {c : Category} (h : getCategoryByName s name = some c) :
    resolveImportCategory s name = some c := by
  unfold resolveImportCategory
  rw [h]

/-- A batch whose categories all resolve by exact name and whose dates all
parse is inserted in order and in full, preserving amount, currency,
description, date and category name of every record. -/
theorem importLoop_exact (now : Time) (l : List SyncTransaction) :
    ∀ s i e,
      (∀ r ∈ l, ∃ c, getCategoryByName s r.categoryName = some c) →
      (∀ r ∈ l, (parseRFC3339 r.date).isSome) →
      (s.categories.map (fun c => c.id)).Nodup →
      ∃ ts, (importLoop now s i e l).1.transactions = s.transactions ++ ts ∧
        (importLoop now s i e l).2.1 = i + l.length ∧
        (importLoop now s i e l).2.2 = e ∧
        (∀ t ∈ ts, t.deletedAt = none) ∧
        ts.map (liveEssence s.categories) = l.map recordEssence := by
  induction l with
  | nil =>
    intro s i e _ _ _
    exact ⟨[], by simp [importLoop], by simp [importLoop],
      by simp [importLoop], by simp, by simp⟩
  | cons r l ih =>
    intro s i e hcat hdate hnodup
    obtain ⟨c, hc⟩ := hcat r (List.mem_cons_self r l)
    have hd : (parseRFC3339 r.date).isSome := hdate r (List.mem_cons_self r l)
    cases hparse : parseRFC3339 r.date with
    | none => rw [hparse] at hd; cases hd
    | some d =>
      have hstep := @importLoop_cons_ok s r c d now i e l
        (resolveImportCategory_of_get hc) hparse
      have hcat' : ∀ r' ∈ l, ∃ c', getCategoryByName
          (createTransaction s 1 c.id r.amount r.currency r.description d
            now).1 r'.categoryName = some c' :=
        fun r' hr' => hcat r' (List.mem_cons_of_mem r hr')
      have hdate' : ∀ r' ∈ l, (parseRFC3339 r'.date).isSome :=
        fun r' hr' => hdate r' (List.mem_cons_of_mem r hr')
      have hnodup' : (((createTransaction s 1 c.id r.amount r.currency
          r.description d now).1).categories.map (fun c => c.id)).Nodup :=
        hnodup
      obtain ⟨ts', h1, h2, h3, h4, h5⟩ :=
        ih (createTransaction s 1 c.id r.amount r.currency r.description d
          now).1 (i + 1) e hcat' hdate' hnodup'
      rw [createTransaction_categories] at h5
      have hc' : s.categories.find? (fun c' => c'.name = r.categoryName) =
          some c := hc
      have hcmem : c ∈ s.categories := List.mem_of_find?_eq_some hc'
      have hcname : c.name = r.categoryName := by
        simpa using List.find?_some hc'
      refine ⟨⟨s.nextTransactionId, 1, c.id, r.amount, r.currency,
        r.description, d, some now, none⟩ :: ts', ?_, ?_, ?_, ?_, ?_⟩
      · rw [hstep, h1]
        simp [createTransaction]
      · rw [hstep, h2]
        simp
        omega
      · rw [hstep, h3]
      · intro t ht
        rcases List.mem_cons.mp ht with h | h
        · rw [h]
        · exact h4 t h
      · simp only [List.map_cons, h5]
        congr 1
        simp only [liveEssence, recordEssence, catNameOf, hparse,
          Option.getD_some]
        rw [find?_id_of_nodup hnodup hcmem]
        simp [hcname]

/-! ## Export characterization -/

/-- What `HandleSyncExport` emits for a stored transaction (note the
hard-coded `categoryType := ""` of the handler). -/
def exportRecordOf (s : Store) (t : Transaction) : SyncTransaction :=
  { id := t.id
    amount := t.amount
    currency := t.currency
    description := t.description
    date := formatRFC3339 t.date
    categoryName := catNameOf s.categories t
    categoryType := ""
    createdAt := match t.createdAt with
      | some c => formatRFC3339 c
      | none => "" }

/-- What `performJSONExport` emits for a stored transaction (the category
type is the real one here). -/
def storageRecordOf (s : Store) (t : Transaction) : StorageTransaction :=
  { id := t.id
    amount := t.amount
    currency := t.currency
    description := t.description
    date := formatRFC3339 t.date
    categoryName := catNameOf s.categories t
    categoryType := catTypeOf s.categories t }

theorem syncTransactionOfRow_joinRow {s : Store} {t : Transaction}
    {r : TxRow} (h : joinRow s t = some r) :
    syncTransactionOfRow r = exportRecordOf s t := by
  obtain ⟨htx, c, hfind, hname, htype⟩ := joinRow_eq_some h
  simp [syncTransactionOfRow, exportRecordOf, htx, hname, catNameOf, hfind]

theorem filterMap_joinRow_map (s : Store) (l : List Transaction)
    (h : ∀ t ∈ l, (joinRow s t).isSome) :
    (l.filterMap (joinRow s)).map syncTransactionOfRow =
      l.map (exportRecordOf s) := by
  induction l with
  | nil => simp
  | cons t l ih =>
    have ht := h t (List.mem_cons_self t l)
    cases hj : joinRow s t with
    | none => rw [hj] at ht; cases ht
    | some r =>
      simp only [List.filterMap_cons, hj, List.map_cons,
        syncTransactionOfRow_joinRow hj,
        ih (fun t' ht' => h t' (List.mem_cons_of_mem t ht'))]

/-- `HandleSyncExport` returns (up to the date-descending ordering) exactly
one record per non-deleted transaction whose `strftime('%Y')` equals the
year parameter, with the fields of `exportRecordOf`. -/
theorem handleSyncExport_transactions_perm (s : Store) (y : String)
    (now : Time)
    (hwf : ∀ t ∈ s.transactions, t.deletedAt = none →
      t.userId ∈ s.users ∧ ∃ c ∈ s.categories, c.id = t.categoryId) :
    ((handleSyncExport s (some y) now).transactions).Perm
      ((s.transactions.filter
          (fun t => t.deletedAt = none && strftimeY t.date = y)).map
        (exportRecordOf s)) := by
  have hjoin : ∀ t ∈ s.transactions.filter
      (fun t => t.deletedAt = none && strftimeY t.date = y),
      (joinRow s t).isSome := by
    intro t ht
    have hmem := List.mem_of_mem_filter ht
    have hp := List.of_mem_filter ht
    simp only [Bool.and_eq_true, decide_eq_true_eq] at hp
    obtain ⟨hu, hcid⟩ := hwf t hmem hp.1
    exact joinRow_isSome hu hcid
  have h1 : (handleSyncExport s (some y) now).transactions =
      (listTransactionsByYear s y).map syncTransactionOfRow := rfl
  rw [h1, ← filterMap_joinRow_map s _ hjoin]
  exact (listTransactionsByYear_perm s y).map syncTransactionOfRow

/-- The category list of every sync export is the full catalog. -/
theorem handleSyncExport_categories_perm (s : Store)
    (yearParam : Option String) (now : Time) :
    ((handleSyncExport s yearParam now).categories).Perm
      (s.categories.map syncCategoryOfRow) := by
  have h1 : (handleSyncExport s yearParam now).categories =
      (listCategories s).map syncCategoryOfRow := rfl
  rw [h1]
  exact (listCategories_perm s).map syncCategoryOfRow

/-- A sync export with period `"all"` returns no transactions: the year
filter is a literal string comparison and no `strftime('%Y')` value is
`"all"`. -/
theorem handleSyncExport_all_empty (s : Store) (now : Time) :
    (handleSyncExport s (some "all") now).transactions = [] := by
  have hfil : s.transactions.filter
      (fun t => t.deletedAt = none && strftimeY t.date = "all") = [] := by
    rw [List.filter_eq_nil_iff]
    intro t ht
    simp [strftimeY_ne_all]
  have h1 : (handleSyncExport s (some "all") now).transactions =
      (listTransactionsByYear s "all").map syncTransactionOfRow := rfl
  rw [h1]
  unfold listTransactionsByYear
  rw [hfil]
  rfl

theorem storageTransactionOfRow_join {s : Store} {t : Transaction}
    {r : TxRow}
    (h : (s.categories.find? (fun c => c.id = t.categoryId)).map
      (fun c => (⟨t, c.name, c.type, c.icon⟩ : TxRow)) = some r) :
    storageTransactionOfRow r = storageRecordOf s t := by
  cases hfind : s.categories.find? (fun c => c.id = t.categoryId) with
  | none => rw [hfind] at h; cases h
  | some c =>
    rw [hfind] at h
    cases h
    simp [storageTransactionOfRow, storageRecordOf, catNameOf, catTypeOf,
      hfind]

theorem filterMap_join_map_storage (s : Store) (l : List Transaction)
    (h : ∀ t ∈ l,
      (s.categories.find? (fun c => c.id = t.categoryId)).isSome) :
    (l.filterMap (fun t =>
        (s.categories.find? (fun c => c.id = t.categoryId)).map
          (fun c => (⟨t, c.name, c.type, c.icon⟩ : TxRow)))).map
        storageTransactionOfRow =
      l.map (storageRecordOf s) := by
  induction l with
  | nil => simp
  | cons t l ih =>
    have ht := h t (List.mem_cons_self t l)
    cases hfind : s.categories.find? (fun c => c.id = t.categoryId) with
    | none => rw [hfind] at ht; cases ht
    | some c =>
      have hj : (s.categories.find? (fun c => c.id = t.categoryId)).map
          (fun c => (⟨t, c.name, c.type, c.icon⟩ : TxRow)) =
          some ⟨t, c.name, c.type, c.icon⟩ := by rw [hfind]; rfl
      simp only [List.filterMap_cons, hj, List.map_cons,
        storageTransactionOfRow_join hj,
        ih (fun t' ht' => h t' (List.mem_cons_of_mem t ht'))]

/-- The JSON sidecar contains (up to ordering) exactly one record per
non-deleted transaction, with real category name and type, regardless of
any period: its period is always `"all"`. -/
theorem performJSONExportEnvelope_perm (s : Store) (now : Time)
    (hwf : ∀ t ∈ s.transactions, t.deletedAt = none →
      ∃ c ∈ s.categories, c.id = t.categoryId) :
    ((performJSONExportEnvelope s now).transactions).Perm
      ((s.transactions.filter (fun t => t.deletedAt = none)).map
        (storageRecordOf s)) := by
  have hjoin : ∀ t ∈ s.transactions.filter (fun t => t.deletedAt = none),
      (s.categories.find? (fun c => c.id = t.categoryId)).isSome := by
    intro t ht
    have hmem := List.mem_of_mem_filter ht
    have hp := List.of_mem_filter ht
    simp only [decide_eq_true_eq] at hp
    obtain ⟨c, hc₁, hc₂⟩ := hwf t hmem hp
    rw [List.find?_isSome]
    exact ⟨c, hc₁, by simp [hc₂]⟩
  have h1 : (performJSONExportEnvelope s now).transactions =
      (listAllTransactionsForExport s).map storageTransactionOfRow := rfl
  rw [h1, ← filterMap_join_map_storage s _ hjoin]
  exact (listAllTransactionsForExport_perm s).map storageTransactionOfRow

/-! ## Length of decimal renderings -/

theorem decimalDigitsAux_congr :
    ∀ f₁ f₂ n, (n ≤ f₁ ∨ n < 10) → (n ≤ f₂ ∨ n < 10) →
      decimalDigitsAux f₁ n = decimalDigitsAux f₂ n := by
  intro f₁
  induction f₁ with
  | zero =>
    intro f₂ n h₁ h₂
    have hn : n < 10 := by omega
    cases f₂ with
    | zero => rfl
    | succ f₂ => simp [decimalDigitsAux, hn]
  | succ f₁ ih =>
    intro f₂ n h₁ h₂
    by_cases hn : n < 10
    · cases f₂ with
      | zero => simp [decimalDigitsAux, hn]
      | succ f₂ => simp [decimalDigitsAux, hn]
    · cases f₂ with
      | zero => omega
      | succ f₂ =>
        simp only [decimalDigitsAux, if_neg hn]
        rw [ih f₂ (n / 10) (by omega) (by omega)]

theorem decimalDigits_lt10 {n : Nat} (h : n < 10) :
    decimalDigits n = [digitChar n] := by
  unfold decimalDigits
  cases n with
  | zero => rfl
  | succ m => simp [decimalDigitsAux, h]

theorem decimalDigits_ge10 {n : Nat} (h : 10 ≤ n) :
    decimalDigits n = decimalDigits (n / 10) ++ [digitChar n] := by
  unfold decimalDigits
  cases hn : n with
  | zero => omega
  | succ m =>
    simp only [decimalDigitsAux, if_neg (by omega : ¬(m + 1 < 10))]
    rw [decimalDigitsAux_congr m ((m + 1) / 10) ((m + 1) / 10)
      (by omega) (by omega)]

/-- A year between 1000 and 9999 renders with exactly four digits. -/
theorem decimalDigits_length_four {n : Nat} (h₁ : 1000 ≤ n)
    (h₂ : n ≤ 9999) : (decimalDigits n).length = 4 := by
  rw [decimalDigits_ge10 (by omega), decimalDigits_ge10 (by omega),
    decimalDigits_ge10 (by omega),
    decimalDigits_lt10 (show n / 10 / 10 / 10 < 10 by omega)]
  simp

/-! ## Claim theorems -/

/-- C1: the claim (and the spec, the doc comment of `getLastBackupTime`
and the repository's own test `TestRunBackupDoesNotUpdateTimeOnFailure`)
say the shared last-backup timestamp advances only when both sub-steps of
a cycle succeed and stays at the zero value after a failing cycle.  The
code's `runBackup` calls `setLastBackupTime(time.Now())` unconditionally:
a first cycle whose binary-snapshot sub-step fails (as with backup
directory `/dev/null/impossible/path`) still logs the failure yet moves
the timestamp from zero to now. -/
theorem C1_backup_timestamp_advances_despite_failure :
    runBackup (some "mkdir /dev/null/impossible/path: not a directory")
        none ⟨2026, 1, 1, 0, 0, 0⟩ none =
      (some ⟨2026, 1, 1, 0, 0, 0⟩,
        ["Backup failed (db): mkdir /dev/null/impossible/path: not a directory",
         "Backup completed"]) ∧
    getLastBackupTime (some ⟨2026, 1, 1, 0, 0, 0⟩) ≠
      getLastBackupTime (none : Option Time) := by
  constructor
  · rfl
  · decide

/-- C3: an import against a store holding at least one non-deleted
transaction is a no-op — `imported = 0`, `errors = 0`, `skipped` = batch
size, store unchanged — and consequently a second import of the same
envelope, after a first import that imported at least one record into an
empty store, imports nothing and changes nothing. -/
theorem C3_import_idempotency_guard (s s₀ : Store)
    (records : List SyncTransaction) (now now' : Time)
    (h : countAllTransactions s > 0)
    (h₀ : countAllTransactions s₀ = 0)
    (himp : 0 < (handleSyncImport s₀ records now).2.imported) :
    handleSyncImport s records now = (s, ⟨0, records.length, 0⟩) ∧
      handleSyncImport (handleSyncImport s₀ records now).1 records now' =
        ((handleSyncImport s₀ records now).1, ⟨0, records.length, 0⟩) := by
  refine ⟨handleSyncImport_guard records now h, ?_⟩
  rcases hloop : importLoop now s₀ 0 0 records with ⟨s₁, i₁, e₁⟩
  have he := handleSyncImport_empty records now h₀ hloop
  have hcnt := importLoop_countAll now records s₀ 0 0
  rw [hloop] at hcnt
  simp only at hcnt
  rw [he] at himp ⊢
  simp only at himp
  exact @handleSyncImport_guard s₁ records now' (by omega)

/-- C3 witness: a store with one live transaction skips a one-record
batch wholesale. -/
def c3Store : Store :=
  ⟨[1], [⟨1, "Food", "expense", none, none⟩],
    [⟨1, 1, 1, -100, "USD", "pizza", ⟨2026, 1, 15, 10, 0, 0⟩, none, none⟩],
    2⟩

def c3EmptyStore : Store := ⟨[1], [⟨1, "Food", "expense", none, none⟩], [], 1⟩

def c3Record : SyncTransaction :=
  ⟨7, -250, "USD", "coffee", "2026-02-01T08:00:00Z", "Food", "expense", ""⟩

theorem C3_import_idempotency_guard_witness :
    handleSyncImport c3Store [c3Record] ⟨2026, 3, 1, 0, 0, 0⟩ =
      (c3Store, ⟨0, 1, 0⟩) :=
  (C3_import_idempotency_guard c3Store c3EmptyStore [c3Record]
    ⟨2026, 3, 1, 0, 0, 0⟩ ⟨2026, 3, 2, 0, 0, 0⟩ (by decide) (by decide)
    (by decide)).1

/-- C6: the three outcome counters of any import call sum to the batch
size; moreover, importing a batch into an empty store in which every
record's category resolves by exact name yields `errors` = number of
records with an unparseable date, `imported` = the rest, `skipped = 0`. -/
theorem C6_import_outcome_accounting (s₁ s : Store)
    (records₁ records : List SyncTransaction) (now₁ now : Time)
    (hempty : countAllTransactions s = 0)
    (hres : ∀ r ∈ records, (getCategoryByName s r.categoryName).isSome) :
    ((handleSyncImport s₁ records₁ now₁).2.imported +
        (handleSyncImport s₁ records₁ now₁).2.skipped +
        (handleSyncImport s₁ records₁ now₁).2.errors = records₁.length) ∧
      (handleSyncImport s records now).2.errors =
        (records.filter (fun r => (parseRFC3339 r.date).isNone)).length ∧
      (handleSyncImport s records now).2.imported =
        records.length -
          (records.filter (fun r => (parseRFC3339 r.date).isNone)).length ∧
      (handleSyncImport s records now).2.skipped = 0 := by
  have hsum : ∀ (s' : Store) (rs : List SyncTransaction) (n : Time),
      (handleSyncImport s' rs n).2.imported +
        (handleSyncImport s' rs n).2.skipped +
        (handleSyncImport s' rs n).2.errors = rs.length := by
    intro s' rs n
    by_cases hc : countAllTransactions s' > 0
    · rw [handleSyncImport_guard rs n hc]
      simp
    · rcases hloop : importLoop n s' 0 0 rs with ⟨sx, ix, ex⟩
      have he := handleSyncImport_empty rs n (by omega) hloop
      have hcnt := importLoop_counts n rs s' 0 0
      rw [hloop] at hcnt
      rw [he]
      simp only at hcnt ⊢
      omega
  refine ⟨hsum s₁ records₁ now₁, ?_⟩
  have hres' : ∀ r ∈ records,
      (resolveImportCategory s r.categoryName).isSome := by
    intro r hr
    have := hres r hr
    cases hg : getCategoryByName s r.categoryName with
    | none => rw [hg] at this; cases this
    | some c => rw [resolveImportCategory_of_get hg]; rfl
  rcases hloop : importLoop now s 0 0 records with ⟨sx, ix, ex⟩
  have he := handleSyncImport_empty records now hempty hloop
  have herr := importLoop_resolved now records s 0 0 hres'
  have hcnt := importLoop_counts now records s 0 0
  rw [hloop] at herr hcnt
  simp only at herr hcnt
  rw [he]
  refine ⟨by simpa using herr, ?_, ?_⟩ <;> simp only <;> omega

def c6Store : Store := ⟨[1], [⟨1, "Food", "expense", none, none⟩], [], 1⟩

def c6Good : SyncTransaction :=
  ⟨1, -2500, "USD", "valid tx", "2026-01-15T10:00:00Z", "Food", "expense", ""⟩

def c6Bad : SyncTransaction :=
  ⟨2, -1000, "USD", "bad date tx", "not-a-date", "Food", "expense", ""⟩

theorem C6_import_outcome_accounting_witness :
    (handleSyncImport c6Store [c6Good, c6Bad, c6Good] ⟨2026, 3, 1, 0, 0, 0⟩
        ).2.imported +
      (handleSyncImport c6Store [c6Good, c6Bad, c6Good]
        ⟨2026, 3, 1, 0, 0, 0⟩).2.skipped +
      (handleSyncImport c6Store [c6Good, c6Bad, c6Good]
        ⟨2026, 3, 1, 0, 0, 0⟩).2.errors = 3 ∧
    (handleSyncImport c6Store [c6Good, c6Bad, c6Good]
      ⟨2026, 3, 1, 0, 0, 0⟩).2.errors = 1 :=
  ⟨(C6_import_outcome_accounting c6Store c6Store [c6Good, c6Bad, c6Good]
      [c6Good, c6Bad, c6Good] ⟨2026, 3, 1, 0, 0, 0⟩ ⟨2026, 3, 1, 0, 0, 0⟩
      (by decide) (by decide)).1,
    by
      have h := (C6_import_outcome_accounting c6Store c6Store
        [c6Good, c6Bad, c6Good] [c6Good, c6Bad, c6Good]
        ⟨2026, 3, 1, 0, 0, 0⟩ ⟨2026, 3, 1, 0, 0, 0⟩
        (by decide) (by decide)).2.1
      rw [h]
      decide⟩

/-- C7: a record whose category name fails the exact lookup is imported
under the first category of the `(type, name)`-ordered catalog
(`ListCategories`' first row) rather than errored; and with an empty
catalog every record of the batch is counted as an error while the batch
still runs to completion. -/
theorem C7_import_category_fallback (s : Store) (r : SyncTransaction)
    (l records : List SyncTransaction) (i e : Nat) (now now' : Time)
    (cat : Category) (rest : List Category) (d : Time) (s₂ : Store)
    (hmiss : getCategoryByName s r.categoryName = none)
    (hcats : listCategories s = cat :: rest)
    (hdate : parseRFC3339 r.date = some d)
    (hcat₂ : s₂.categories = [])
    (hcnt₂ : countAllTransactions s₂ = 0) :
    importLoop now s i e (r :: l) =
        importLoop now (createTransaction s 1 cat.id r.amount r.currency
          r.description d now).1 (i + 1) e l ∧
      handleSyncImport s₂ records now' = (s₂, ⟨0, 0, records.length⟩) := by
  constructor
  · have hres : resolveImportCategory s r.categoryName = some cat := by
      unfold resolveImportCategory
      rw [hmiss, hcats]
      rfl
    exact importLoop_cons_ok now i e l hres hdate
  · have hloop := importLoop_empty_catalog now' records s₂ 0 0 hcat₂
    have he := handleSyncImport_empty records now' hcnt₂ hloop
    rw [he]
    simp

def c7Store : Store :=
  ⟨[1], [⟨2, "Transport", "expense", none, none⟩,
    ⟨1, "Food", "expense", none, none⟩], [], 1⟩

def c7EmptyCatStore : Store := ⟨[1], [], [], 1⟩

def c7Record : SyncTransaction :=
  ⟨300, -3000, "USD", "unknown cat tx", "2026-03-01T10:00:00Z",
    "NonExistentCategory", "expense", ""⟩

theorem C7_import_category_fallback_witness :
    importLoop ⟨2026, 3, 1, 0, 0, 0⟩ c7Store 0 0 [c7Record] =
        importLoop ⟨2026, 3, 1, 0, 0, 0⟩ (createTransaction c7Store 1 1
          c7Record.amount c7Record.currency c7Record.description
          ⟨2026, 3, 1, 10, 0, 0⟩ ⟨2026, 3, 1, 0, 0, 0⟩).1 1 0 [] ∧
      handleSyncImport c7EmptyCatStore [c7Record] ⟨2026, 3, 1, 0, 0, 0⟩ =
        (c7EmptyCatStore, ⟨0, 0, 1⟩) :=
  C7_import_category_fallback c7Store c7Record [] [c7Record] 0 0
    ⟨2026, 3, 1, 0, 0, 0⟩ ⟨2026, 3, 1, 0, 0, 0⟩
    ⟨1, "Food", "expense", none, none⟩ [⟨2, "Transport", "expense", none,
      none⟩] ⟨2026, 3, 1, 10, 0, 0⟩ c7EmptyCatStore (by decide) (by decide)
    (by decide) (by decide) (by decide)

/-- C9: the restore upload check accepts exactly the byte strings of
length at least sixteen whose first sixteen bytes are the SQLite signature
`"SQLite format 3\x00"`; on any other upload the handler rejects before
`sqliteRestore` runs and the live store is unchanged. -/
theorem C9_restore_upload_validation (u : List Nat) (live uploaded : Store) :
    (validateUpload u = true ↔ 16 ≤ u.length ∧ u.take 16 = sqliteMagic) ∧
      (validateUpload u = false →
        handleBackupRestore live u uploaded = (live, false)) := by
  constructor
  · simp [validateUpload]
  · intro h
    simp [handleBackupRestore, h]

def c9Live : Store :=
  ⟨[1], [⟨1, "Food", "expense", none, none⟩],
    [⟨1, 1, 1, -100, "USD", "pizza", ⟨2026, 1, 15, 10, 0, 0⟩, none, none⟩],
    2⟩

def c9Uploaded : Store := ⟨[1], [], [], 1⟩

theorem C9_restore_upload_validation_witness :
    validateUpload (sqliteMagic ++ [0, 1, 2]) = true ∧
      handleBackupRestore c9Live [0x53, 0x51, 0x4C] c9Uploaded =
        (c9Live, false) :=
  ⟨(C9_restore_upload_validation (sqliteMagic ++ [0, 1, 2]) c9Live
      c9Uploaded).1.mpr (by decide),
    (C9_restore_upload_validation [0x53, 0x51, 0x4C] c9Live c9Uploaded).2
      (by decide)⟩

def c4Store : Store :=
  ⟨[1], [⟨1, "Food", "expense", none, none⟩],
    [⟨1, 1, 1, -100, "USD", "pizza", ⟨2025, 6, 1, 0, 0, 0⟩, none, none⟩],
    2⟩

/-- C4 counterexample: the claim says a sync export with period `"all"`
returns all non-deleted transactions.  On a store with one live
transaction (dated 2025), `HandleSyncExport` with `year=all` returns an
empty transaction list: the handler has no `"all"` branch and compares
`strftime('%Y', date)` with the literal string `"all"`. -/
theorem C4_counterexample_all_period_empty :
    (handleSyncExport c4Store (some "all") ⟨2026, 2, 1, 0, 0, 0⟩
        ).transactions = [] ∧
      (c4Store.transactions.filter (fun t => t.deletedAt = none)).length
        = 1 := by
  constructor
  · decide
  · decide

/-- C4 (amended): the HTTP sync export treats the period purely as a year
string compared against `strftime('%Y', date)`: for any period string the
envelope holds exactly the non-deleted transactions whose stored year
string equals it (so a period of `"all"` matches nothing and yields an
empty list), while the category list is always the full catalog; only the
scheduler's JSON sidecar export carries period `"all"`, and it contains
every non-deleted transaction. -/
theorem C4_export_period_selection (s : Store) (y : String) (now : Time)
    (hwf : ∀ t ∈ s.transactions, t.deletedAt = none →
      t.userId ∈ s.users ∧ ∃ c ∈ s.categories, c.id = t.categoryId) :
    ((handleSyncExport s (some y) now).transactions).Perm
        ((s.transactions.filter
          (fun t => t.deletedAt = none && strftimeY t.date = y)).map
          (exportRecordOf s)) ∧
      ((handleSyncExport s (some y) now).categories).Perm
        (s.categories.map syncCategoryOfRow) ∧
      (handleSyncExport s (some "all") now).transactions = [] ∧
      (performJSONExportEnvelope s now).year = "all" ∧
      ((performJSONExportEnvelope s now).transactions).Perm
        ((s.transactions.filter (fun t => t.deletedAt = none)).map
          (storageRecordOf s)) :=
  ⟨handleSyncExport_transactions_perm s y now hwf,
    handleSyncExport_categories_perm s (some y) now,
    handleSyncExport_all_empty s now,
    rfl,
    performJSONExportEnvelope_perm s now
      (fun t ht hd => (hwf t ht hd).2)⟩

theorem C4_export_period_selection_witness :
    ((handleSyncExport c4Store (some "2025") ⟨2026, 2, 1, 0, 0, 0⟩
        ).transactions).Perm
        ((c4Store.transactions.filter
          (fun t => t.deletedAt = none && strftimeY t.date = "2025")).map
          (exportRecordOf c4Store)) ∧
      ((handleSyncExport c4Store (some "2025") ⟨2026, 2, 1, 0, 0, 0⟩
        ).categories).Perm (c4Store.categories.map syncCategoryOfRow) ∧
      (handleSyncExport c4Store (some "all") ⟨2026, 2, 1, 0, 0, 0⟩
        ).transactions = [] ∧
      (performJSONExportEnvelope c4Store ⟨2026, 2, 1, 0, 0, 0⟩).year =
        "all" ∧
      ((performJSONExportEnvelope c4Store ⟨2026, 2, 1, 0, 0, 0⟩
        ).transactions).Perm
        ((c4Store.transactions.filter (fun t => t.deletedAt = none)).map
          (storageRecordOf c4Store)) :=
  C4_export_period_selection c4Store "2025" ⟨2026, 2, 1, 0, 0, 0⟩
    (by decide)

def c5Store : Store :=
  ⟨[1], [⟨1, "Food", "expense", none, none⟩],
    [⟨1, 1, 1, -100, "USD", "pizza", ⟨2026, 1, 15, 10, 0, 0⟩, none, none⟩],
    2⟩

/-- C5 counterexample: the claim says each exported transaction's
`categoryType` equals its category's type.  On a store whose only
category is `Food` of type `"expense"`, the sync export envelope carries
`categoryType = ""` for the `Food` transaction — `HandleSyncExport`
hard-codes `CategoryType: ""` even though the SQL row includes the type. -/
theorem C5_counterexample_sync_export_blank_type :
    ((handleSyncExport c5Store (some "2026") ⟨2026, 2, 1, 0, 0, 0⟩
        ).transactions.map (fun st => (st.categoryName, st.categoryType)))
        = [("Food", "")] ∧
      c5Store.categories = [⟨1, "Food", "expense", none, none⟩] ∧
      ("" : String) ≠ "expense" := by
  refine ⟨by decide, rfl, by decide⟩

/-- C5 (amended): only the category *name* is denormalized into the sync
export envelope — its `categoryType` field is always the empty string;
the scheduler's JSON sidecar envelope does denormalize both the name and
the real type of each transaction's category. -/
theorem C5_export_category_type_denormalization (s : Store)
    (yp : Option String) (now : Time) :
    (∀ st ∈ (handleSyncExport s yp now).transactions,
        st.categoryType = "") ∧
      (∀ st ∈ (performJSONExportEnvelope s now).transactions,
        ∃ t ∈ s.transactions, ∃ c,
          s.categories.find? (fun c => c.id = t.categoryId) = some c ∧
            st.categoryType = c.type ∧ st.categoryName = c.name) := by
  constructor
  · intro st hst
    cases yp with
    | some y =>
      obtain ⟨r, _, rfl⟩ := List.mem_map.mp (show st ∈
        (listTransactionsByYear s y).map syncTransactionOfRow from hst)
      rfl
    | none =>
      obtain ⟨r, _, rfl⟩ := List.mem_map.mp (show st ∈
        (listTransactionsByYear s
          (natDecimalString now.year)).map syncTransactionOfRow from hst)
      rfl
  · intro st hst
    have hst' : st ∈ (listAllTransactionsForExport s).map
        storageTransactionOfRow := hst
    obtain ⟨r, hr, rfl⟩ := List.mem_map.mp hst'
    have hr' : r ∈ (s.transactions.filter
        (fun t => t.deletedAt = none)).filterMap
        (fun t => (s.categories.find? (fun c => c.id = t.categoryId)).map
          (fun c => (⟨t, c.name, c.type, c.icon⟩ : TxRow))) :=
      (listAllTransactionsForExport_perm s).mem_iff.mp hr
    obtain ⟨t, htf, hft⟩ := List.mem_filterMap.mp hr'
    have htm : t ∈ s.transactions := List.mem_of_mem_filter htf
    cases hfind : s.categories.find? (fun c => c.id = t.categoryId) with
    | none => rw [hfind] at hft; cases hft
    | some c =>
      rw [hfind] at hft
      cases hft
      exact ⟨t, htm, c, hfind, rfl, rfl⟩

theorem C5_export_category_type_denormalization_witness :
    ({ id := 1, amount := -100, currency := "USD", description := "pizza",
        date := "2026-01-15T10:00:00Z", categoryName := "Food",
        categoryType := "", createdAt := "" } :
        SyncTransaction).categoryType = "" :=
  (C5_export_category_type_denormalization c5Store (some "2026")
      ⟨2026, 2, 1, 0, 0, 0⟩).1
    { id := 1, amount := -100, currency := "USD", description := "pizza",
      date := "2026-01-15T10:00:00Z", categoryName := "Food",
      categoryType := "", createdAt := "" } (by decide)

def c8Store : Store := ⟨[1], [⟨1, "Food", "expense", none, none⟩], [], 1⟩

def c8Record : SyncTransaction :=
  ⟨100, 500, "USD", "mismatched sign", "2026-01-15T10:00:00Z", "Food",
    "expense", ""⟩

/-- C8 counterexample: the claim says every write path stores an amount
whose sign agrees with the resolved category's type, including sync
import.  Importing a record with the positive amount `500` and category
`Food` (type `"expense"`) into an empty store inserts a transaction with
amount `500` under the expense category: the import preserves the signed
amount verbatim and performs no sign check. -/
theorem C8_counterexample_import_sign_unchecked :
    ((handleSyncImport c8Store [c8Record] ⟨2026, 2, 1, 0, 0, 0⟩
        ).1.transactions.map (fun t =>
          (t.amount, catTypeOf (handleSyncImport c8Store [c8Record]
            ⟨2026, 2, 1, 0, 0, 0⟩).1.categories t)))
        = [(500, "expense")] ∧
      ¬((500 : Int) ≤ 0) := by
  refine ⟨by decide, by decide⟩

/-- C8 (amended): `HandleTransactionCreate` enforces the sign invariant —
it negates the (non-negative) parsed amount exactly when the resolved
category type is `"expense"` — but the sync import inserts each record's
signed amount verbatim with no check against the resolved category's
type, so after an import the invariant holds only if the envelope already
respected it. -/
theorem C8_amount_sign_policy (s : Store) (parsed : ParsedTransaction)
    (now : Time) (s' : Store) (records : List SyncTransaction)
    (now' : Time) (hpos : 0 ≤ parsed.amount) :
    ((resolveCreateCategory s parsed.category).2.2 = "expense" →
        (handleTransactionCreate s parsed now).2.amount ≤ 0) ∧
      ((resolveCreateCategory s parsed.category).2.2 ≠ "expense" →
        0 ≤ (handleTransactionCreate s parsed now).2.amount) ∧
      (∀ t ∈ (handleSyncImport s' records now').1.transactions,
        t ∈ s'.transactions ∨ ∃ r ∈ records, t.amount = r.amount) := by
  refine ⟨?_, ?_, ?_⟩
  · intro h
    simp only [handleTransactionCreate, createTransaction, h, if_pos]
    omega
  · intro h
    simp only [handleTransactionCreate, createTransaction, if_neg h]
    exact hpos
  · intro t ht
    by_cases hc : countAllTransactions s' > 0
    · rw [handleSyncImport_guard records now' hc] at ht
      exact Or.inl ht
    · rcases hloop : importLoop now' s' 0 0 records with ⟨sx, ix, ex⟩
      rw [handleSyncImport_empty records now' (by omega) hloop] at ht
      have := importLoop_mem_amount now' records s' 0 0 t
      rw [hloop] at this
      exact this ht

theorem C8_amount_sign_policy_witness :
    (handleTransactionCreate c8Store ⟨100, "pizza", "Food"⟩
      ⟨2026, 2, 1, 0, 0, 0⟩).2.amount ≤ 0 :=
  (C8_amount_sign_policy c8Store ⟨100, "pizza", "Food"⟩
      ⟨2026, 2, 1, 0, 0, 0⟩ c8Store [] ⟨2026, 2, 1, 0, 0, 0⟩
      (by decide)).1 (by decide)

/-- C10: a sync-export request without a `year` parameter defaults to the
current server year: the envelope's period field is the 4-digit
`fmt.Sprintf("%d", time.Now().Year())` string (never `"all"`), only
transactions whose stored year equals the current year are returned, and
a store whose live transactions all lie in other years exports an empty
transaction list. -/
theorem C10_export_defaults_to_current_year (s : Store) (now : Time)
    (h₁ : 1000 ≤ now.year) (h₂ : now.year ≤ 9999) :
    (handleSyncExport s none now).year = natDecimalString now.year ∧
      (natDecimalString now.year).length = 4 ∧
      natDecimalString now.year ≠ "all" ∧
      (∀ st ∈ (handleSyncExport s none now).transactions,
        ∃ t ∈ s.transactions, t.deletedAt = none ∧
          t.date.year = now.year) ∧
      ((∀ t ∈ s.transactions, t.deletedAt = none →
          t.date.year ≠ now.year) →
        (handleSyncExport s none now).transactions = []) := by
  refine ⟨rfl, ?_, natDecimalString_ne_all now.year, ?_, ?_⟩
  · show (decimalDigits now.year).length = 4
    exact decimalDigits_length_four h₁ h₂
  · intro st hst
    have hst' : st ∈ (listTransactionsByYear s
        (natDecimalString now.year)).map syncTransactionOfRow := hst
    obtain ⟨r, hr, rfl⟩ := List.mem_map.mp hst'
    have hr' := (listTransactionsByYear_perm s
      (natDecimalString now.year)).mem_iff.mp hr
    obtain ⟨t, htf, hft⟩ := List.mem_filterMap.mp hr'
    have htm : t ∈ s.transactions := List.mem_of_mem_filter htf
    have hp := List.of_mem_filter htf
    simp only [Bool.and_eq_true, decide_eq_true_eq] at hp
    exact ⟨t, htm, hp.1, strftimeY_eq_natDecimalString hp.2⟩
  · intro hpast
    have hfil : s.transactions.filter (fun t => t.deletedAt = none &&
        strftimeY t.date = natDecimalString now.year) = [] := by
      rw [List.filter_eq_nil_iff]
      intro t ht
      simp only [Bool.and_eq_true, decide_eq_true_eq, not_and]
      intro hdel hyear
      exact hpast t ht hdel (strftimeY_eq_natDecimalString hyear)
    have h1 : (handleSyncExport s none now).transactions =
        (listTransactionsByYear s
          (natDecimalString now.year)).map syncTransactionOfRow := rfl
    rw [h1]
    unfold listTransactionsByYear
    rw [hfil]
    rfl

def c10Store : Store :=
  ⟨[1], [⟨1, "Food", "expense", none, none⟩],
    [⟨1, 1, 1, -100, "USD", "pizza", ⟨2025, 6, 1, 0, 0, 0⟩, none, none⟩],
    2⟩

theorem C10_export_defaults_to_current_year_witness :
    (handleSyncExport c10Store none ⟨2026, 2, 1, 0, 0, 0⟩).year =
        natDecimalString 2026 ∧
      (handleSyncExport c10Store none ⟨2026, 2, 1, 0, 0, 0⟩).transactions
        = [] :=
  ⟨(C10_export_defaults_to_current_year c10Store ⟨2026, 2, 1, 0, 0, 0⟩
      (by decide) (by decide)).1,
    (C10_export_defaults_to_current_year c10Store ⟨2026, 2, 1, 0, 0, 0⟩
      (by decide) (by decide)).2.2.2.2 (by decide)⟩

/-- C2 (amended): round-trip law for single-year stores.  The sync export
supports only per-year periods (there is no `"all"` branch), so a single
envelope can cover a store only when every live transaction lies in one
year `y`.  For such a store (with resolving references and valid dates),
exporting with period `y` and importing the envelope's transactions into
a fresh store with no transactions and a catalog covering the exported
category names (unique ids) yields, up to id renumbering and ordering,
exactly the source's non-deleted transactions: signed amount, currency,
description, occurrence date and category name are all preserved. -/
theorem C2_export_import_roundtrip (s f : Store) (y : String)
    (now now' : Time)
    (hy : ∀ t ∈ s.transactions, t.deletedAt = none → strftimeY t.date = y)
    (hwf : ∀ t ∈ s.transactions, t.deletedAt = none →
      t.userId ∈ s.users ∧ ∃ c ∈ s.categories, c.id = t.categoryId)
    (hvalid : ∀ t ∈ s.transactions, t.date.Valid)
    (hfresh : f.transactions = [])
    (hnames : ∀ c ∈ s.categories, ∃ c' ∈ f.categories, c'.name = c.name)
    (hnodup : (f.categories.map (fun c => c.id)).Nodup) :
    (((handleSyncImport f (handleSyncExport s (some y) now).transactions
          now').1.transactions.filter (fun t => t.deletedAt = none)).map
        (liveEssence (handleSyncImport f
          (handleSyncExport s (some y) now).transactions
          now').1.categories)).Perm
      ((s.transactions.filter (fun t => t.deletedAt = none)).map
        (liveEssence s.categories)) := by
  have hguard : countAllTransactions f = 0 := by
    simp [countAllTransactions, hfresh]
  have hfe : s.transactions.filter
      (fun t => t.deletedAt = none && strftimeY t.date = y) =
      s.transactions.filter (fun t => t.deletedAt = none) := by
    apply List.filter_congr
    intro t ht
    by_cases hd : t.deletedAt = none
    · simp [hd, hy t ht hd]
    · simp [hd]
  have hperm : ((handleSyncExport s (some y) now).transactions).Perm
      ((s.transactions.filter (fun t => t.deletedAt = none)).map
        (exportRecordOf s)) := by
    have := handleSyncExport_transactions_perm s y now hwf
    rwa [hfe] at this
  have hrec_shape : ∀ r ∈ (handleSyncExport s (some y) now).transactions,
      ∃ t ∈ s.transactions, t.deletedAt = none ∧ r = exportRecordOf s t := by
    intro r hr
    obtain ⟨t, htf, rfl⟩ := List.mem_map.mp (hperm.mem_iff.mp hr)
    exact ⟨t, List.mem_of_mem_filter htf,
      by simpa using List.of_mem_filter htf, rfl⟩
  have hrescat : ∀ r ∈ (handleSyncExport s (some y) now).transactions,
      ∃ c, getCategoryByName f r.categoryName = some c := by
    intro r hr
    obtain ⟨t, htm, htd, rfl⟩ := hrec_shape r hr
    obtain ⟨hu, c₀, hc₀m, hc₀id⟩ := hwf t htm htd
    cases hfind : s.categories.find? (fun c => c.id = t.categoryId) with
    | none =>
      have : (s.categories.find? (fun c => c.id = t.categoryId)).isSome := by
        rw [List.find?_isSome]
        exact ⟨c₀, hc₀m, by simp [hc₀id]⟩
      rw [hfind] at this
      cases this
    | some c₁ =>
      have hc₁m : c₁ ∈ s.categories := List.mem_of_find?_eq_some hfind
      obtain ⟨c', hc'm, hc'name⟩ := hnames c₁ hc₁m
      have hname : (exportRecordOf s t).categoryName = c₁.name := by
        simp [exportRecordOf, catNameOf, hfind]
      rw [hname]
      have : (f.categories.find? (fun c => c.name = c₁.name)).isSome := by
        rw [List.find?_isSome]
        exact ⟨c', hc'm, by simp [hc'name]⟩
      cases hg : f.categories.find? (fun c => c.name = c₁.name) with
      | none => rw [hg] at this; cases this
      | some c₂ => exact ⟨c₂, hg⟩
  have hresdate : ∀ r ∈ (handleSyncExport s (some y) now).transactions,
      (parseRFC3339 r.date).isSome := by
    intro r hr
    obtain ⟨t, htm, _, rfl⟩ := hrec_shape r hr
    show (parseRFC3339 (formatRFC3339 t.date)).isSome
    rw [parseRFC3339_formatRFC3339 t.date (hvalid t htm)]
    rfl
  obtain ⟨ts, h1, h2, h3, h4, h5⟩ := importLoop_exact now'
    (handleSyncExport s (some y) now).transactions f 0 0 hrescat hresdate
    hnodup
  rw [handleSyncImport_pair (handleSyncExport s (some y) now).transactions
    now' hguard]
  simp only
  rw [importLoop_categories now'
    ((handleSyncExport s (some y) now).transactions) f 0 0, h1, hfresh]
  simp only [List.nil_append]
  rw [List.filter_eq_self.mpr (fun t ht => by simp [h4 t ht]), h5]
  have hpt : ∀ t ∈ s.transactions.filter (fun t => t.deletedAt = none),
      (recordEssence ∘ exportRecordOf s) t = liveEssence s.categories t := by
    intro t htf
    have htm := List.mem_of_mem_filter htf
    simp only [Function.comp_apply, recordEssence, exportRecordOf,
      liveEssence]
    rw [parseRFC3339_formatRFC3339 t.date (hvalid t htm)]
    rfl
  have hmm := hperm.map recordEssence
  rw [List.map_map, List.map_congr_left hpt] at hmm
  exact hmm

def c2Source : Store :=
  ⟨[1], [⟨1, "Food", "expense", none, none⟩],
    [⟨1, 1, 1, -4200, "USD", "pizza", ⟨2026, 1, 15, 12, 0, 0⟩, none, none⟩],
    2⟩

def c2Fresh : Store := ⟨[1], [⟨5, "Food", "expense", none, none⟩], [], 1⟩

theorem C2_export_import_roundtrip_witness :
    (((handleSyncImport c2Fresh (handleSyncExport c2Source (some "2026")
          ⟨2026, 2, 1, 0, 0, 0⟩).transactions
          ⟨2026, 2, 2, 0, 0, 0⟩).1.transactions.filter
        (fun t => t.deletedAt = none)).map
        (liveEssence (handleSyncImport c2Fresh (handleSyncExport c2Source
          (some "2026") ⟨2026, 2, 1, 0, 0, 0⟩).transactions
          ⟨2026, 2, 2, 0, 0, 0⟩).1.categories)).Perm
      ((c2Source.transactions.filter (fun t => t.deletedAt = none)).map
        (liveEssence c2Source.categories)) :=
  C2_export_import_roundtrip c2Source c2Fresh "2026" ⟨2026, 2, 1, 0, 0, 0⟩
    ⟨2026, 2, 2, 0, 0, 0⟩ (by decide) (by decide) (by decide) (by decide)
    (by decide) (by decide)

def c2MultiStore : Store :=
  ⟨[1], [⟨1, "Food", "expense", none, none⟩],
    [⟨1, 1, 1, -100, "USD", "pizza 2025", ⟨2025, 6, 1, 10, 0, 0⟩, none,
      none⟩,
     ⟨2, 1, 1, -200, "USD", "pizza 2026", ⟨2026, 1, 15, 10, 0, 0⟩, none,
      none⟩],
    3⟩

/-- C2 counterexample: the claim quantifies over every non-empty store,
but the sync export has only per-year periods, so a store spanning two
years cannot round-trip.  On a store with two live transactions (one
dated 2025, one 2026) and a fresh empty target whose catalog resolves
every name, importing the export envelope yields 1 of 2 transactions for
period `"2026"`, 1 of 2 for period `"2025"`, and 0 of 2 for period
`"all"` — never a transaction set equal to the source's non-deleted
transactions. -/
theorem C2_counterexample_multi_year_store_loses_rows :
    (c2MultiStore.transactions.filter
        (fun t => t.deletedAt = none)).length = 2 ∧
      ((handleSyncImport c2Fresh (handleSyncExport c2MultiStore
          (some "2026") ⟨2026, 2, 1, 0, 0, 0⟩).transactions
          ⟨2026, 2, 2, 0, 0, 0⟩).1.transactions.filter
        (fun t => t.deletedAt = none)).length = 1 ∧
      ((handleSyncImport c2Fresh (handleSyncExport c2MultiStore
          (some "2025") ⟨2026, 2, 1, 0, 0, 0⟩).transactions
          ⟨2026, 2, 2, 0, 0, 0⟩).1.transactions.filter
        (fun t => t.deletedAt = none)).length = 1 ∧
      ((handleSyncImport c2Fresh (handleSyncExport c2MultiStore
          (some "all") ⟨2026, 2, 1, 0, 0, 0⟩).transactions
          ⟨2026, 2, 2, 0, 0, 0⟩).1.transactions.filter
        (fun t => t.deletedAt = none)).length = 0 := by
  refine ⟨by decide, by decide, by decide, by decide⟩
